import Mathlib

/-!
Verification development for the arb-future-edge-model pipeline.

The JavaScript sources are shallowly embedded here:
* `scripts/generate-capacity-labels.mjs` — capacity resolution, phase
  assignment, and the resolution-anchored label synthesis;
* `scripts/train-robust-models.mjs` — quantile/winsorization, threshold
  tuning, segmented regression prediction;
* the walk-forward backtest script — `runWindow` and the window loop;
* the baseline backtest script — `evaluateDecision`.

Numbers are embedded as rationals (`ℚ`).  JavaScript values that feed the
canonical `safeNum` conversion are embedded as `JsVal` (null/undefined/"",
a finite number, or a non-finite conversion result).  `Math.exp` and
`Math.sqrt` are transcendental; they are threaded through the model code
as an explicit `JsMath` parameter, since no verified claim depends on
their values.  Timestamps are embedded as already-parsed epoch
milliseconds (`ℚ`); dataset integrity (parseable timestamps) is a stated
precondition of the pipeline.  `Array.prototype.sort`, which ECMAScript
requires to be a stable sort consistent with the comparator, is embedded
as `List.insertionSort`, the canonical stable sort.
-/

namespace ArbEdge

/-- JavaScript value as seen by the `safeNum` helper shared by every
script: null/undefined/empty-string, a finite number, or a value whose
`Number(...)` conversion is not finite (NaN/Infinity). -/
inductive JsVal where
  | null : JsVal
  | num : ℚ → JsVal
  | nonfinite : JsVal
deriving DecidableEq

/-- Embedding of `safeNum(v)`: null for null/undefined/"" and for
non-finite conversions, otherwise the (finite) numeric value. -/
def safeNum : JsVal → Option ℚ
  | JsVal.null => none
  | JsVal.num q => some q
  | JsVal.nonfinite => none

/-- Embedding of `mean(values)`: null on an empty list, else the average. -/
def mean (values : List ℚ) : Option ℚ :=
  if values = [] then none
  else some (values.sum / values.length)

/-- Embedding of `clip(v, lo, hi) = Math.max(lo, Math.min(hi, v))`. -/
def clip (v lo hi : ℚ) : ℚ :=
  max lo (min hi v)

/-- Decision-record fields consumed by the label synthesizer
(`generate-capacity-labels.mjs`).  `decisionTs` is the parsed epoch-ms
timestamp. -/
structure LabelRow where
  decisionTs : ℚ
  expectedEdgeAtDecision : JsVal
  targetContractsAtDecision : JsVal
  minKernelContractsAtDecision : JsVal
deriving DecidableEq

/-- Candidate capacities of a row that parsed to a positive finite number
(the `candidates` array inside `resolveCapacity`). -/
def posCandidates (row : LabelRow) : List ℚ :=
  ([safeNum row.targetContractsAtDecision,
    safeNum row.minKernelContractsAtDecision].filterMap id).filter
    (fun x => decide (0 < x))

/-- Embedding of `resolveCapacity(row)`: null when no candidate capacity
is positive and finite, otherwise `Math.min` over the candidates. -/
def resolveCapacity (row : LabelRow) : Option ℚ :=
  match posCandidates row with
  | [] => none
  | c :: cs => some (cs.foldl min c)

lemma foldl_min_mem (c : ℚ) (cs : List ℚ) : cs.foldl min c ∈ c :: cs := by
  induction cs generalizing c with
  | nil => simp
  | cons x xs ih =>
    have h := ih (min c x)
    rw [List.foldl_cons]
    rcases List.mem_cons.mp h with h1 | h1
    · rcases min_choice c x with he | he
      · rw [h1, he]; exact List.mem_cons_self _ _
      · rw [h1, he]; exact List.mem_cons_of_mem _ (List.mem_cons_self _ _)
    · exact List.mem_cons_of_mem _ (List.mem_cons_of_mem _ h1)

lemma foldl_min_le (c : ℚ) (cs : List ℚ) : ∀ x ∈ c :: cs, cs.foldl min c ≤ x := by
  induction cs generalizing c with
  | nil =>
    intro x hx
    simp at hx
    simp [hx]
  | cons y ys ih =>
    intro x hx
    rw [List.foldl_cons]
    have hmin : ys.foldl min (min c y) ≤ min c y :=
      ih (min c y) (min c y) (List.mem_cons_self _ _)
    rcases List.mem_cons.mp hx with h1 | h1
    · rw [h1]
      exact le_trans hmin (min_le_left _ _)
    · rcases List.mem_cons.mp h1 with h2 | h2
      · rw [h2]
        exact le_trans hmin (min_le_right _ _)
      · exact ih (min c y) x (List.mem_cons_of_mem _ h2)

lemma resolveCapacity_eq (row : LabelRow) :
    resolveCapacity row = match posCandidates row with
      | [] => none
      | c :: cs => some (cs.foldl min c) := rfl

/-- C5: `resolveCapacity` returns null exactly when no candidate field
parses to a positive finite number; otherwise it returns the minimum of
the positive finite candidates, which is itself positive. -/
theorem resolveCapacity_null_or_min (row : LabelRow) :
    (resolveCapacity row = none ↔ posCandidates row = []) ∧
    (∀ v, resolveCapacity row = some v →
      0 < v ∧ v ∈ posCandidates row ∧ ∀ x ∈ posCandidates row, v ≤ x) := by
  constructor
  · constructor
    · intro h
      cases hc : posCandidates row with
      | nil => rfl
      | cons c cs =>
        rw [resolveCapacity_eq, hc] at h
        exact Option.noConfusion h
    · intro h
      rw [resolveCapacity_eq, h]
  · intro v hv
    cases hc : posCandidates row with
    | nil =>
      rw [resolveCapacity_eq, hc] at hv
      exact Option.noConfusion hv
    | cons c cs =>
      rw [resolveCapacity_eq, hc] at hv
      have hveq : cs.foldl min c = v := Option.some.inj hv
      rw [← hveq]
      refine ⟨?_, ?_, ?_⟩
      · have hmem : cs.foldl min c ∈ posCandidates row := by
          rw [hc]; exact foldl_min_mem c cs
        have := List.of_mem_filter hmem
        simpa using this
      · exact foldl_min_mem c cs
      · intro x hx
        exact foldl_min_le c cs x hx

/-- C5 witness: a concrete row with candidates 5 and 3 resolves to 3. -/
theorem resolveCapacity_null_or_min_witness :
    (resolveCapacity ⟨0, JsVal.null, JsVal.num 5, JsVal.num 3⟩ = none ↔
      posCandidates ⟨0, JsVal.null, JsVal.num 5, JsVal.num 3⟩ = []) ∧
    (∀ v, resolveCapacity ⟨0, JsVal.null, JsVal.num 5, JsVal.num 3⟩ = some v →
      0 < v ∧ v ∈ posCandidates ⟨0, JsVal.null, JsVal.num 5, JsVal.num 3⟩ ∧
        ∀ x ∈ posCandidates ⟨0, JsVal.null, JsVal.num 5, JsVal.num 3⟩, v ≤ x) :=
  resolveCapacity_null_or_min ⟨0, JsVal.null, JsVal.num 5, JsVal.num 3⟩

/-- Resolution-phase bucket: a key with a half-open hour interval
`[minHours, maxHours)`. -/
structure Phase where
  key : String
  minHours : ℚ
  maxHours : ℚ
deriving DecidableEq

/-- Embedding of the `RESOLUTION_PHASES` constant table. -/
def RESOLUTION_PHASES : List Phase :=
  [⟨"T_7d_3d", 72, 168⟩,
   ⟨"T_3d_1d", 24, 72⟩,
   ⟨"T_24h_6h", 6, 24⟩,
   ⟨"T_6h_1h", 1, 6⟩,
   ⟨"T_1h_close", 0, 1⟩]

/-- Embedding of `resolvePhaseKey(ttrHours)`: null for a null input, else
the key of the first phase whose interval contains the value (null when
none does). -/
def resolvePhaseKey (ttrHours : Option ℚ) : Option String :=
  match ttrHours with
  | none => none
  | some t =>
    (RESOLUTION_PHASES.find?
      (fun p => decide (p.minHours ≤ t) && decide (t < p.maxHours))).map Phase.key

/-- C6: phase assignment is total and non-overlapping on `[0, 168)` and
null outside it (and on null input). -/
theorem resolvePhaseKey_partition :
    resolvePhaseKey none = none ∧
    (∀ t : ℚ, t < 0 ∨ 168 ≤ t → resolvePhaseKey (some t) = none) ∧
    (∀ t : ℚ, 0 ≤ t → t < 168 →
      ∃ p, p ∈ RESOLUTION_PHASES ∧ p.minHours ≤ t ∧ t < p.maxHours ∧
        resolvePhaseKey (some t) = some p.key ∧
        ∀ q ∈ RESOLUTION_PHASES, q.minHours ≤ t → t < q.maxHours → q = p) := by
  refine ⟨rfl, ?_, ?_⟩
  · intro t ht
    rcases ht with ht | ht
    · simp only [resolvePhaseKey, RESOLUTION_PHASES, List.find?]
      have h1 : ¬ ((72 : ℚ) ≤ t) := by linarith
      have h2 : ¬ ((24 : ℚ) ≤ t) := by linarith
      have h3 : ¬ ((6 : ℚ) ≤ t) := by linarith
      have h4 : ¬ ((1 : ℚ) ≤ t) := by linarith
      have h5 : ¬ ((0 : ℚ) ≤ t) := by linarith
      simp [h1, h2, h3, h4, h5]
    · simp only [resolvePhaseKey, RESOLUTION_PHASES, List.find?]
      have h1 : ¬ (t < (168 : ℚ)) := by linarith
      have h2 : ¬ (t < (72 : ℚ)) := by linarith
      have h3 : ¬ (t < (24 : ℚ)) := by linarith
      have h4 : ¬ (t < (6 : ℚ)) := by linarith
      have h5 : ¬ (t < (1 : ℚ)) := by linarith
      simp [h1, h2, h3, h4, h5]
  · intro t h0 h168
    by_cases h72 : (72 : ℚ) ≤ t
    · refine ⟨⟨"T_7d_3d", 72, 168⟩, by simp [RESOLUTION_PHASES], h72, h168, ?_, ?_⟩
      · simp [resolvePhaseKey, RESOLUTION_PHASES, List.find?, h72, h168]
      · intro q hq hq1 hq2
        simp only [RESOLUTION_PHASES, List.mem_cons, List.mem_singleton] at hq
        rcases hq with rfl | rfl | rfl | rfl | rfl | h
        · rfl
        · exfalso; simp at hq2; linarith
        · exfalso; simp at hq2; linarith
        · exfalso; simp at hq2; linarith
        · exfalso; simp at hq2; linarith
        · exact absurd h (List.not_mem_nil q)
    · push_neg at h72
      by_cases h24 : (24 : ℚ) ≤ t
      · refine ⟨⟨"T_3d_1d", 24, 72⟩, by simp [RESOLUTION_PHASES], h24, h72, ?_, ?_⟩
        · have hn : ¬ ((72 : ℚ) ≤ t) := by linarith
          simp [resolvePhaseKey, RESOLUTION_PHASES, List.find?, hn, h24, h72]
        · intro q hq hq1 hq2
          simp only [RESOLUTION_PHASES, List.mem_cons, List.mem_singleton] at hq
          rcases hq with rfl | rfl | rfl | rfl | rfl | h
          · exfalso; simp at hq1; linarith
          · rfl
          · exfalso; simp at hq2; linarith
          · exfalso; simp at hq2; linarith
          · exfalso; simp at hq2; linarith
          · exact absurd h (List.not_mem_nil q)
      · push_neg at h24
        by_cases h6 : (6 : ℚ) ≤ t
        · refine ⟨⟨"T_24h_6h", 6, 24⟩, by simp [RESOLUTION_PHASES], h6, h24, ?_, ?_⟩
          · have hn1 : ¬ ((72 : ℚ) ≤ t) := by linarith
            have hn2 : ¬ ((24 : ℚ) ≤ t) := by linarith
            simp [resolvePhaseKey, RESOLUTION_PHASES, List.find?, hn1, hn2, h6, h24]
          · intro q hq hq1 hq2
            simp only [RESOLUTION_PHASES, List.mem_cons, List.mem_singleton] at hq
            rcases hq with rfl | rfl | rfl | rfl | rfl | h
            · exfalso; simp at hq1; linarith
            · exfalso; simp at hq1; linarith
            · rfl
            · exfalso; simp at hq2; linarith
            · exfalso; simp at hq2; linarith
            · exact absurd h (List.not_mem_nil q)
        · push_neg at h6
          by_cases h1 : (1 : ℚ) ≤ t
          · refine ⟨⟨"T_6h_1h", 1, 6⟩, by simp [RESOLUTION_PHASES], h1, h6, ?_, ?_⟩
            · have hn1 : ¬ ((72 : ℚ) ≤ t) := by linarith
              have hn2 : ¬ ((24 : ℚ) ≤ t) := by linarith
              have hn3 : ¬ ((6 : ℚ) ≤ t) := by linarith
              simp [resolvePhaseKey, RESOLUTION_PHASES, List.find?, hn1, hn2, hn3, h1, h6]
            · intro q hq hq1 hq2
              simp only [RESOLUTION_PHASES, List.mem_cons, List.mem_singleton] at hq
              rcases hq with rfl | rfl | rfl | rfl | rfl | h
              · exfalso; simp at hq1; linarith
              · exfalso; simp at hq1; linarith
              · exfalso; simp at hq1; linarith
              · rfl
              · exfalso; simp at hq2; linarith
              · exact absurd h (List.not_mem_nil q)
          · push_neg at h1
            refine ⟨⟨"T_1h_close", 0, 1⟩, by simp [RESOLUTION_PHASES], h0, h1, ?_, ?_⟩
            · have hn1 : ¬ ((72 : ℚ) ≤ t) := by linarith
              have hn2 : ¬ ((24 : ℚ) ≤ t) := by linarith
              have hn3 : ¬ ((6 : ℚ) ≤ t) := by linarith
              have hn4 : ¬ ((1 : ℚ) ≤ t) := by linarith
              simp [resolvePhaseKey, RESOLUTION_PHASES, List.find?, hn1, hn2, hn3, hn4, h0, h1]
            · intro q hq hq1 hq2
              simp only [RESOLUTION_PHASES, List.mem_cons, List.mem_singleton] at hq
              rcases hq with rfl | rfl | rfl | rfl | rfl | h
              · exfalso; simp at hq1; linarith
              · exfalso; simp at hq1; linarith
              · exfalso; simp at hq1; linarith
              · exfalso; simp at hq1; linarith
              · rfl
              · exact absurd h (List.not_mem_nil q)

/-- C6 witness: instantiating the partition theorem at hours 100 (phase
T_7d_3d) and at -1 and 200 (null). -/
theorem resolvePhaseKey_partition_witness :
    resolvePhaseKey (some 100) = some "T_7d_3d" ∧
    resolvePhaseKey (some (-1)) = none ∧
    resolvePhaseKey (some 200) = none := by
  obtain ⟨-, hnull, htotal⟩ := resolvePhaseKey_partition
  refine ⟨?_, ?_, ?_⟩
  · obtain ⟨p, hp, hp1, hp2, hp3, hp4⟩ := htotal 100 (by norm_num) (by norm_num)
    have : p = ⟨"T_7d_3d", 72, 168⟩ := by
      have := hp4 ⟨"T_7d_3d", 72, 168⟩ (by simp [RESOLUTION_PHASES]) (by norm_num) (by norm_num)
      exact this.symm
    rw [hp3, this]
  · exact hnull (-1) (Or.inl (by norm_num))
  · exact hnull 200 (Or.inr (by norm_num))

/-- Embedding of `MAX_MODEL_WINDOW_MS` (7 days in milliseconds). -/
def MAX_MODEL_WINDOW_MS : ℚ := 7 * 24 * 60 * 60 * 1000

/-- Embedding of `LATE_WINDOW_HOURS`. -/
def LATE_WINDOW_HOURS : ℚ := 24

/-- Embedding of `NEAR_RESOLUTION_HOURS`. -/
def NEAR_RESOLUTION_HOURS : ℚ := 6

/-- Embedding of the `POLICY_WINDOW_HOURS_BY_PHASE` table. -/
def POLICY_WINDOW_HOURS_BY_PHASE : List (String × ℚ) :=
  [("T_7d_3d", 24), ("T_3d_1d", 12), ("T_24h_6h", 6), ("T_6h_1h", 1), ("T_1h_close", 0.5)]

/-- Embedding of `resolvePolicyWindowHours(phaseKey, ttrHoursNow)`: the
table value when the phase key is present in the table, else 24 for a
null time-to-resolution, else `clip(ttr/4, 0.5, 24)`. -/
def resolvePolicyWindowHours (phaseKey : Option String) (ttrHoursNow : Option ℚ) : ℚ :=
  match phaseKey.bind (fun k => POLICY_WINDOW_HOURS_BY_PHASE.lookup k) with
  | some h => h
  | none =>
    match ttrHoursNow with
    | none => 24
    | some t => max 0.5 (min 24 (t / 4))

/-- Best-so-far trackers of the candidate scan in
`buildResolutionAnchoredLabels` (the mutable `best*` variables). -/
structure ResAcc where
  bestEdge7d : Option ℚ
  bestEdgeTs : Option ℚ
  bestCapAdj7d : Option ℚ
  bestCapAdjTs : Option ℚ
  bestFillRatio7d : Option ℚ
  bestFutureCapacity7d : Option ℚ
  bestLateCapAdj : Option ℚ
  bestLateFillRatio : Option ℚ
  bestNearResCapAdj : Option ℚ
  bestPolicyWindowCapAdj : Option ℚ
  bestPolicyWindowFillRatio : Option ℚ
  bestPolicyWindowTs : Option ℚ
deriving DecidableEq

/-- Initial tracker state (every `best*` variable starts as null). -/
def initResAcc : ResAcc :=
  ⟨none, none, none, none, none, none, none, none, none, none, none, none⟩

/-- Guard `best === null || v > best` shared by every tracker update. -/
def beats (cur : Option ℚ) (v : ℚ) : Bool :=
  match cur with
  | none => true
  | some b => decide (b < v)

/-- Update of the `bestEdge7d`/`bestEdgeTs` trackers for one candidate. -/
def stepEdge (acc : ResAcc) (cEdge cTsMs : ℚ) : ResAcc :=
  if beats acc.bestEdge7d cEdge then
    { acc with bestEdge7d := some cEdge, bestEdgeTs := some cTsMs }
  else acc

/-- Update of the `bestFutureCapacity7d` tracker for one candidate. -/
def stepFutureCap (acc : ResAcc) (cCap : Option ℚ) : ResAcc :=
  match cCap with
  | some cc =>
    if beats acc.bestFutureCapacity7d cc then
      { acc with bestFutureCapacity7d := some cc }
    else acc
  | none => acc

/-- Update of the 7-day capacity-adjusted-uplift trackers for one
candidate. -/
def stepCapAdj (acc : ResAcc) (uplift fillRatio cTsMs : ℚ) : ResAcc :=
  if beats acc.bestCapAdj7d uplift then
    { acc with bestCapAdj7d := some uplift, bestCapAdjTs := some cTsMs,
               bestFillRatio7d := some fillRatio }
  else acc

/-- Update of the late-window (≤ 24h to resolution) trackers. -/
def stepLate (acc : ResAcc) (cTtrHours : Option ℚ) (uplift fillRatio : ℚ) : ResAcc :=
  match cTtrHours with
  | some th =>
    if th ≤ LATE_WINDOW_HOURS then
      (if beats acc.bestLateCapAdj uplift then
        { acc with bestLateCapAdj := some uplift, bestLateFillRatio := some fillRatio }
      else acc)
    else acc
  | none => acc

/-- Update of the near-resolution (≤ 6h to resolution) tracker. -/
def stepNear (acc : ResAcc) (cTtrHours : Option ℚ) (uplift : ℚ) : ResAcc :=
  match cTtrHours with
  | some th =>
    if th ≤ NEAR_RESOLUTION_HOURS then
      (if beats acc.bestNearResCapAdj uplift then
        { acc with bestNearResCapAdj := some uplift }
      else acc)
    else acc
  | none => acc

/-- Update of the policy-window trackers. -/
def stepPolicy (acc : ResAcc) (cTsMs policyWindowEndTs uplift fillRatio : ℚ) : ResAcc :=
  if cTsMs ≤ policyWindowEndTs then
    (if beats acc.bestPolicyWindowCapAdj uplift then
      { acc with bestPolicyWindowCapAdj := some uplift,
                 bestPolicyWindowFillRatio := some fillRatio,
                 bestPolicyWindowTs := some cTsMs }
    else acc)
  else acc

/-- Update of the capacity-adjusted-uplift trackers (7-day, late-window,
near-resolution and policy-window) for one candidate; active only when
now-capacity is positive and the candidate capacity is known. -/
def stepUplift (resolutionTs : Option ℚ) (nowEdge : ℚ) (nowCapacity : Option ℚ)
    (policyWindowEndTs : ℚ) (acc : ResAcc) (cEdge cTsMs : ℚ) (cCap : Option ℚ) : ResAcc :=
  match nowCapacity, cCap with
  | some nc, some cc =>
    if 0 < nc then
      let cTtrHours := resolutionTs.map (fun r => (r - cTsMs) / (60 * 60 * 1000))
      let fillable := min nc cc
      let fillRatio := fillable / nc
      let uplift := cEdge * fillable - nowEdge * nc
      stepPolicy
        (stepNear (stepLate (stepCapAdj acc uplift fillRatio cTsMs) cTtrHours uplift fillRatio)
          cTtrHours uplift)
        cTsMs policyWindowEndTs uplift fillRatio
    else acc
  | _, _ => acc

/-- Embedding of one iteration of the candidate loop in
`buildResolutionAnchoredLabels` (candidates with a null edge are
skipped). -/
def resStep (resolutionTs : Option ℚ) (nowEdge : ℚ) (nowCapacity : Option ℚ)
    (policyWindowEndTs : ℚ) (acc : ResAcc) (c : LabelRow) : ResAcc :=
  match safeNum c.expectedEdgeAtDecision with
  | none => acc
  | some cEdge =>
    stepUplift resolutionTs nowEdge nowCapacity policyWindowEndTs
      (stepFutureCap (stepEdge acc cEdge c.decisionTs) (resolveCapacity c))
      cEdge c.decisionTs (resolveCapacity c)

/-- Window end of the resolution-anchored scan:
`resolutionTs === null ? now + 7d : min(resolutionTs, now + 7d)`. -/
def resolutionWindowEndTs (nowTsMs : ℚ) (resolutionTs : Option ℚ) : ℚ :=
  match resolutionTs with
  | none => nowTsMs + MAX_MODEL_WINDOW_MS
  | some r => min r (nowTsMs + MAX_MODEL_WINDOW_MS)

/-- Candidate rows of the resolution-anchored scan: the subsequent rows
of the series up to the first one past the window end (the loop breaks
there, relying on the series being time-ordered). -/
def resCandidates (rest : List LabelRow) (windowEndTs : ℚ) : List LabelRow :=
  rest.takeWhile (fun c => decide (c.decisionTs ≤ windowEndTs))

/-- Fields of the resolution-anchored label object. -/
structure ResolutionAnchoredLabel where
  timeToResolutionHoursNow : Option ℚ
  phaseNow : Option String
  edgeUplift7d : ℚ
  improvesEdge7d : Bool
  bestFutureEdge7d : ℚ
  minutesToBestEdge7d : Option ℚ
  nowCapacityContracts : Option ℚ
  bestFutureCapacityContracts7d : Option ℚ
  capacityChangeContracts7d : Option ℚ
  capacityAdjustedUplift7d : Option ℚ
  improvesCapacityAdjusted7d : Option Bool
  minutesToBestCapacityAdjusted7d : Option ℚ
  bestFillRatioAtNowSize7d : Option ℚ
  bestLateWindowCapacityAdjustedUplift : Option ℚ
  bestLateWindowFillRatioAtNowSize : Option ℚ
  enterEarlyBetterThanLate : Option Bool
  nearResolutionCapacityAdjustedUplift : Option ℚ
  policyWindowHours : ℚ
  deltaNetPnlPolicyWindowAtNowSize : Option ℚ
  buyNowBeatsWaitWindow : Option Bool
  bestWaitFillRatioPolicyWindowAtNowSize : Option ℚ
  minutesToBestPolicyWindow : Option ℚ
  labelCensoredPolicyWindow : Bool
deriving DecidableEq

/-- Body of `buildResolutionAnchoredLabels` for the "now" record and the
subsequent rows of its series.  Returns null when the candidate window is
empty or the now-edge is null, and also (after the scan) when no
candidate had a non-null edge. -/
def buildResolutionAnchoredLabelsAux (now : LabelRow) (rest : List LabelRow)
    (resolutionTs : Option ℚ) : Option ResolutionAnchoredLabel :=
  match resCandidates rest (resolutionWindowEndTs now.decisionTs resolutionTs),
        safeNum now.expectedEdgeAtDecision with
  | [], _ => none
  | _ :: _, none => none
  | c0 :: cs, some nowEdge =>
    let nowCapacity := resolveCapacity now
    let nowTsMs := now.decisionTs
    let windowEndTs := resolutionWindowEndTs nowTsMs resolutionTs
    let ttrHoursNow := resolutionTs.map (fun r => (r - nowTsMs) / (60 * 60 * 1000))
    let phaseNow := resolvePhaseKey ttrHoursNow
    let policyWindowHours := resolvePolicyWindowHours phaseNow ttrHoursNow
    let policyWindowEndTs := min windowEndTs (nowTsMs + policyWindowHours * (60 * 60 * 1000))
    let acc := (c0 :: cs).foldl
      (resStep resolutionTs nowEdge nowCapacity policyWindowEndTs) initResAcc
    match acc.bestEdge7d with
    | none => none
    | some bestEdge =>
      some {
        timeToResolutionHoursNow := ttrHoursNow
        phaseNow := phaseNow
        edgeUplift7d := bestEdge - nowEdge
        improvesEdge7d := decide (0 < bestEdge - nowEdge)
        bestFutureEdge7d := bestEdge
        minutesToBestEdge7d := acc.bestEdgeTs.map (fun ts => (ts - nowTsMs) / (60 * 1000))
        nowCapacityContracts := nowCapacity
        bestFutureCapacityContracts7d := acc.bestFutureCapacity7d
        capacityChangeContracts7d :=
          match nowCapacity, acc.bestFutureCapacity7d with
          | some a, some b => some (b - a)
          | _, _ => none
        capacityAdjustedUplift7d := acc.bestCapAdj7d
        improvesCapacityAdjusted7d := acc.bestCapAdj7d.map (fun u => decide (0 < u))
        minutesToBestCapacityAdjusted7d :=
          acc.bestCapAdjTs.map (fun ts => (ts - nowTsMs) / (60 * 1000))
        bestFillRatioAtNowSize7d := acc.bestFillRatio7d
        bestLateWindowCapacityAdjustedUplift := acc.bestLateCapAdj
        bestLateWindowFillRatioAtNowSize := acc.bestLateFillRatio
        enterEarlyBetterThanLate := acc.bestLateCapAdj.map (fun u => decide (u ≤ 0))
        nearResolutionCapacityAdjustedUplift := acc.bestNearResCapAdj
        policyWindowHours := policyWindowHours
        deltaNetPnlPolicyWindowAtNowSize := acc.bestPolicyWindowCapAdj
        buyNowBeatsWaitWindow := acc.bestPolicyWindowCapAdj.map (fun u => decide (u ≤ 0))
        bestWaitFillRatioPolicyWindowAtNowSize := acc.bestPolicyWindowFillRatio
        minutesToBestPolicyWindow :=
          acc.bestPolicyWindowTs.map (fun ts => (ts - nowTsMs) / (60 * 1000))
        labelCensoredPolicyWindow := acc.bestPolicyWindowCapAdj.isNone
      }

/-- Embedding of `buildResolutionAnchoredLabels(seq, idx, resolutionTs)`.
At every call site `idx` is a valid index of `seq`; the out-of-range case
is mapped to null here. -/
def buildResolutionAnchoredLabels (seq : List LabelRow) (idx : ℕ)
    (resolutionTs : Option ℚ) : Option ResolutionAnchoredLabel :=
  match seq.drop idx with
  | [] => none
  | now :: rest => buildResolutionAnchoredLabelsAux now rest resolutionTs

lemma stepCapAdj_bestEdge (acc : ResAcc) (u f t : ℚ) :
    (stepCapAdj acc u f t).bestEdge7d = acc.bestEdge7d := by
  unfold stepCapAdj
  split <;> rfl

lemma stepLate_bestEdge (acc : ResAcc) (th : Option ℚ) (u f : ℚ) :
    (stepLate acc th u f).bestEdge7d = acc.bestEdge7d := by
  unfold stepLate
  split
  · split
    · split <;> rfl
    · rfl
  · rfl

lemma stepNear_bestEdge (acc : ResAcc) (th : Option ℚ) (u : ℚ) :
    (stepNear acc th u).bestEdge7d = acc.bestEdge7d := by
  unfold stepNear
  split
  · split
    · split <;> rfl
    · rfl
  · rfl

lemma stepPolicy_bestEdge (acc : ResAcc) (t pw u f : ℚ) :
    (stepPolicy acc t pw u f).bestEdge7d = acc.bestEdge7d := by
  unfold stepPolicy
  split
  · split <;> rfl
  · rfl

lemma stepFutureCap_bestEdge (acc : ResAcc) (cCap : Option ℚ) :
    (stepFutureCap acc cCap).bestEdge7d = acc.bestEdge7d := by
  unfold stepFutureCap
  split
  · split <;> rfl
  · rfl

lemma stepUplift_bestEdge (rts : Option ℚ) (ne : ℚ) (ncap : Option ℚ) (pw : ℚ)
    (acc : ResAcc) (ce ts : ℚ) (cCap : Option ℚ) :
    (stepUplift rts ne ncap pw acc ce ts cCap).bestEdge7d = acc.bestEdge7d := by
  unfold stepUplift
  split
  · split
    · dsimp only
      rw [stepPolicy_bestEdge, stepNear_bestEdge, stepLate_bestEdge, stepCapAdj_bestEdge]
    · rfl
  · rfl

lemma resStep_bestEdge_none (rts : Option ℚ) (ne : ℚ) (ncap : Option ℚ) (pw : ℚ)
    (acc : ResAcc) (c : LabelRow) :
    (resStep rts ne ncap pw acc c).bestEdge7d = none ↔
      (acc.bestEdge7d = none ∧ safeNum c.expectedEdgeAtDecision = none) := by
  unfold resStep
  cases hce : safeNum c.expectedEdgeAtDecision with
  | none => simp
  | some ce =>
    rw [stepUplift_bestEdge, stepFutureCap_bestEdge]
    constructor
    · intro h
      exfalso
      unfold stepEdge at h
      split at h
      · exact Option.noConfusion h
      · rename_i hb
        cases hacc : acc.bestEdge7d with
        | none => rw [hacc] at hb; exact hb rfl
        | some b => rw [hacc] at h; exact Option.noConfusion h
    · rintro ⟨h1, h2⟩
      exact Option.noConfusion h2

lemma foldl_resStep_bestEdge_none (rts : Option ℚ) (ne : ℚ) (ncap : Option ℚ) (pw : ℚ)
    (l : List LabelRow) (acc : ResAcc) :
    (l.foldl (resStep rts ne ncap pw) acc).bestEdge7d = none ↔
      (acc.bestEdge7d = none ∧ ∀ c ∈ l, safeNum c.expectedEdgeAtDecision = none) := by
  induction l generalizing acc with
  | nil => simp
  | cons x xs ih =>
    rw [List.foldl_cons, ih, resStep_bestEdge_none]
    simp only [List.mem_cons]
    constructor
    · rintro ⟨⟨h1, h2⟩, h3⟩
      refine ⟨h1, fun c hc => ?_⟩
      rcases hc with rfl | hc
      · exact h2
      · exact h3 c hc
    · rintro ⟨h1, h2⟩
      exact ⟨⟨h1, h2 x (Or.inl rfl)⟩, fun c hc => h2 c (Or.inr hc)⟩

/-- C1: in every non-null resolution-anchored label,
`buyNowBeatsWaitWindow` is null exactly when
`deltaNetPnlPolicyWindowAtNowSize` is null, and otherwise equals the test
`delta ≤ 0`. -/
theorem buyNowBeatsWaitWindow_polarity (seq : List LabelRow) (idx : ℕ) (rts : Option ℚ)
    (lbl : ResolutionAnchoredLabel)
    (h : buildResolutionAnchoredLabels seq idx rts = some lbl) :
    lbl.buyNowBeatsWaitWindow =
      lbl.deltaNetPnlPolicyWindowAtNowSize.map (fun d => decide (d ≤ 0)) := by
  unfold buildResolutionAnchoredLabels at h
  split at h
  · exact Option.noConfusion h
  · unfold buildResolutionAnchoredLabelsAux at h
    split at h
    · exact Option.noConfusion h
    · exact Option.noConfusion h
    · dsimp only at h
      split at h
      · exact Option.noConfusion h
      · rw [← Option.some.inj h]

/-- Two-row series whose first record gets a non-null label with a
non-null policy-window delta. -/
def wSeq : List LabelRow :=
  [⟨0, JsVal.num 1, JsVal.num 10, JsVal.null⟩,
   ⟨60000, JsVal.num 2, JsVal.num 5, JsVal.null⟩]

/-- Placeholder label used only as the `Option.getD` default in witness
statements. -/
def zeroLabel : ResolutionAnchoredLabel :=
  ⟨none, none, 0, false, 0, none, none, none, none, none, none, none, none,
   none, none, none, none, 0, none, none, none, none, false⟩

lemma build_wSeq_some :
    buildResolutionAnchoredLabels wSeq 0 none =
      some ((buildResolutionAnchoredLabels wSeq 0 none).getD zeroLabel) := by
  norm_num [buildResolutionAnchoredLabels, buildResolutionAnchoredLabelsAux, wSeq,
    resCandidates, resolutionWindowEndTs, MAX_MODEL_WINDOW_MS, safeNum, resStep,
    resolveCapacity, posCandidates, beats, stepEdge, stepFutureCap, stepUplift,
    stepCapAdj, stepLate, stepNear, stepPolicy, initResAcc, resolvePhaseKey,
    resolvePolicyWindowHours, POLICY_WINDOW_HOURS_BY_PHASE, List.filterMap, List.filter,
    Option.getD, min_def]

/-- C1 witness: the polarity equation instantiated on `wSeq`. -/
theorem buyNowBeatsWaitWindow_polarity_witness :
    ((buildResolutionAnchoredLabels wSeq 0 none).getD zeroLabel).buyNowBeatsWaitWindow =
      ((buildResolutionAnchoredLabels wSeq 0 none).getD
          zeroLabel).deltaNetPnlPolicyWindowAtNowSize.map (fun d => decide (d ≤ 0)) :=
  buyNowBeatsWaitWindow_polarity wSeq 0 none _ build_wSeq_some

/-- C2: in every non-null resolution-anchored label,
`labelCensoredPolicyWindow` holds exactly when
`deltaNetPnlPolicyWindowAtNowSize` is null. -/
theorem labelCensored_iff_delta_null (seq : List LabelRow) (idx : ℕ) (rts : Option ℚ)
    (lbl : ResolutionAnchoredLabel)
    (h : buildResolutionAnchoredLabels seq idx rts = some lbl) :
    lbl.labelCensoredPolicyWindow = true ↔
      lbl.deltaNetPnlPolicyWindowAtNowSize = none := by
  unfold buildResolutionAnchoredLabels at h
  split at h
  · exact Option.noConfusion h
  · unfold buildResolutionAnchoredLabelsAux at h
    split at h
    · exact Option.noConfusion h
    · exact Option.noConfusion h
    · dsimp only at h
      split at h
      · exact Option.noConfusion h
      · rw [← Option.some.inj h]
        simp [Option.isNone_iff_eq_none]

/-- Two-row series whose first record gets a non-null label that is
censored (candidate edge known but candidate capacity null). -/
def wSeqCensored : List LabelRow :=
  [⟨0, JsVal.num 1, JsVal.num 10, JsVal.null⟩,
   ⟨60000, JsVal.num 2, JsVal.null, JsVal.null⟩]

lemma build_wSeqCensored_some :
    buildResolutionAnchoredLabels wSeqCensored 0 none =
      some ((buildResolutionAnchoredLabels wSeqCensored 0 none).getD zeroLabel) := by
  norm_num [buildResolutionAnchoredLabels, buildResolutionAnchoredLabelsAux, wSeqCensored,
    resCandidates, resolutionWindowEndTs, MAX_MODEL_WINDOW_MS, safeNum, resStep,
    resolveCapacity, posCandidates, beats, stepEdge, stepFutureCap, stepUplift,
    stepCapAdj, stepLate, stepNear, stepPolicy, initResAcc, resolvePhaseKey,
    resolvePolicyWindowHours, POLICY_WINDOW_HOURS_BY_PHASE, List.filterMap, List.filter,
    Option.getD, min_def]

/-- C2 witness: the censoring equivalence instantiated on `wSeqCensored`. -/
theorem labelCensored_iff_delta_null_witness :
    ((buildResolutionAnchoredLabels wSeqCensored 0 none).getD
        zeroLabel).labelCensoredPolicyWindow = true ↔
      ((buildResolutionAnchoredLabels wSeqCensored 0 none).getD
          zeroLabel).deltaNetPnlPolicyWindowAtNowSize = none :=
  labelCensored_iff_delta_null wSeqCensored 0 none _ build_wSeqCensored_some

/-- First record of the series refuting the two-case null
characterization of C3: its edge is non-null. -/
def c3Row0 : LabelRow := ⟨0, JsVal.num 1, JsVal.null, JsVal.null⟩

/-- Second record: inside the window but with a null edge. -/
def c3Row1 : LabelRow := ⟨1, JsVal.null, JsVal.null, JsVal.null⟩

/-- Series for the C3 counterexample. -/
def c3Seq : List LabelRow := [c3Row0, c3Row1]

/-- C3 counterexample: a record whose candidate window is non-empty and
whose now-edge is non-null still gets a null resolution-anchored label,
because its only candidate has a null edge.  This exhibits a third null
case beyond the two the claim names. -/
theorem resolutionAnchored_null_extra_case :
    buildResolutionAnchoredLabels c3Seq 0 none = none ∧
    resCandidates (c3Seq.drop 1) (resolutionWindowEndTs c3Row0.decisionTs none) ≠ [] ∧
    safeNum c3Row0.expectedEdgeAtDecision ≠ none := by
  refine ⟨?_, ?_, ?_⟩
  · norm_num [buildResolutionAnchoredLabels, buildResolutionAnchoredLabelsAux, c3Seq,
      c3Row0, c3Row1, resCandidates, resolutionWindowEndTs, MAX_MODEL_WINDOW_MS, safeNum,
      resStep, resolveCapacity, posCandidates, beats, stepEdge, stepFutureCap, stepUplift,
      stepCapAdj, stepLate, stepNear, stepPolicy, initResAcc, resolvePhaseKey,
      resolvePolicyWindowHours, POLICY_WINDOW_HOURS_BY_PHASE]
  · norm_num [c3Seq, c3Row0, c3Row1, resCandidates, resolutionWindowEndTs,
      MAX_MODEL_WINDOW_MS]
  · simp [c3Row0, safeNum]

/-- C3 (amended): the resolution-anchored label is null exactly when the
candidate window is empty, the now-edge is null, or every candidate in
the window has a null edge. -/
theorem resolutionAnchored_null_iff :
    (∀ seq idx rts now rest, seq.drop idx = now :: rest →
      buildResolutionAnchoredLabels seq idx rts = buildResolutionAnchoredLabelsAux now rest rts) ∧
    (∀ now rest rts, buildResolutionAnchoredLabelsAux now rest rts = none ↔
      (resCandidates rest (resolutionWindowEndTs now.decisionTs rts) = [] ∨
       safeNum now.expectedEdgeAtDecision = none ∨
       ∀ c ∈ resCandidates rest (resolutionWindowEndTs now.decisionTs rts),
         safeNum c.expectedEdgeAtDecision = none)) := by
  constructor
  · intro seq idx rts now rest h
    unfold buildResolutionAnchoredLabels
    rw [h]
  · intro now rest rts
    unfold buildResolutionAnchoredLabelsAux
    cases hc : resCandidates rest (resolutionWindowEndTs now.decisionTs rts) with
    | nil => simp
    | cons c0 cs =>
      cases he : safeNum now.expectedEdgeAtDecision with
      | none => simp
      | some ne =>
        dsimp only
        constructor
        · intro h
          split at h
          · rename_i heq
            rw [foldl_resStep_bestEdge_none] at heq
            exact Or.inr (Or.inr heq.2)
          · exact Option.noConfusion h
        · intro h
          rcases h with h | h | h
          · exact (List.cons_ne_nil c0 cs h).elim
          · exact Option.noConfusion h
          · split
            · rfl
            · rename_i be heq
              have hnone := (foldl_resStep_bestEdge_none rts ne (resolveCapacity now)
                (min (resolutionWindowEndTs now.decisionTs rts)
                  (now.decisionTs +
                    resolvePolicyWindowHours
                      (resolvePhaseKey
                        (rts.map (fun r => (r - now.decisionTs) / (60 * 60 * 1000))))
                      (rts.map (fun r => (r - now.decisionTs) / (60 * 60 * 1000))) *
                    (60 * 60 * 1000)))
                (c0 :: cs) initResAcc).mpr ⟨rfl, h⟩
              rw [hnone] at heq
              exact Option.noConfusion heq

/-- C3 witness: the amended characterization instantiated on the
concrete series `c3Seq`. -/
theorem resolutionAnchored_null_iff_witness :
    buildResolutionAnchoredLabels c3Seq 0 none =
      buildResolutionAnchoredLabelsAux c3Row0 [c3Row1] none ∧
    (buildResolutionAnchoredLabelsAux c3Row0 [c3Row1] none = none ↔
      (resCandidates [c3Row1] (resolutionWindowEndTs c3Row0.decisionTs none) = [] ∨
       safeNum c3Row0.expectedEdgeAtDecision = none ∨
       ∀ c ∈ resCandidates [c3Row1] (resolutionWindowEndTs c3Row0.decisionTs none),
         safeNum c.expectedEdgeAtDecision = none)) :=
  ⟨resolutionAnchored_null_iff.1 c3Seq 0 none c3Row0 [c3Row1] rfl,
   resolutionAnchored_null_iff.2 c3Row0 [c3Row1] none⟩

/-- Embedding of `quantile(values, q)` from the training scripts: null on
an empty list, else linear interpolation between the two order statistics
bracketing index `(n-1)*q` of the ascending sort. -/
def quantile (values : List ℚ) (q : ℚ) : Option ℚ :=
  if values = [] then none
  else
    let s := values.insertionSort (· ≤ ·)
    let idx : ℚ := ((s.length : ℚ) - 1) * q
    let lo : ℤ := ⌊idx⌋
    let hi : ℤ := ⌈idx⌉
    if lo = hi then some (s.getD lo.toNat 0)
    else
      let frac : ℚ := idx - (lo : ℚ)
      some (s.getD lo.toNat 0 * (1 - frac) + s.getD hi.toNat 0 * frac)

/-- Interpolated value at fractional index `idx` of a list. -/
def quantileVal (s : List ℚ) (idx : ℚ) : ℚ :=
  s.getD (⌊idx⌋).toNat 0 +
    (idx - ((⌊idx⌋ : ℤ) : ℚ)) * (s.getD (⌈idx⌉).toNat 0 - s.getD (⌊idx⌋).toNat 0)

lemma quantile_eq_val (values : List ℚ) (q : ℚ) (h : values ≠ []) :
    quantile values q =
      some (quantileVal (values.insertionSort (· ≤ ·))
        ((((values.insertionSort (· ≤ ·)).length : ℚ) - 1) * q)) := by
  unfold quantile quantileVal
  rw [if_neg h]
  dsimp only
  split
  · rename_i heq
    rw [← heq]
    congr 1
    ring
  · congr 1
    ring

lemma sorted_getD_mono {s : List ℚ} (hs : s.Sorted (· ≤ ·)) {i j : ℕ}
    (hij : i ≤ j) (hj : j < s.length) : s.getD i 0 ≤ s.getD j 0 := by
  have hi : i < s.length := lt_of_le_of_lt hij hj
  rw [List.getD_eq_getElem s 0 hi, List.getD_eq_getElem s 0 hj]
  exact hs.rel_get_of_le (by exact hij)

lemma ceil_toNat_lt {s : List ℚ} {i : ℚ} (h0 : 0 ≤ i) (hn : i ≤ (s.length : ℚ) - 1) :
    (⌈i⌉).toNat < s.length := by
  have h1 : ⌈i⌉ ≤ (s.length : ℤ) - 1 := by
    rw [Int.ceil_le]
    push_cast
    linarith
  have h2 : (1 : ℚ) ≤ (s.length : ℚ) := by linarith
  have h3 : 1 ≤ s.length := by exact_mod_cast h2
  omega

lemma floor_toNat_le_ceil_toNat {i : ℚ} : (⌊i⌋).toNat ≤ (⌈i⌉).toNat := by
  have := Int.floor_le_ceil i
  omega

lemma quantileVal_between {s : List ℚ} (hs : s.Sorted (· ≤ ·)) {idx : ℚ}
    (h0 : 0 ≤ idx) (hn : idx ≤ (s.length : ℚ) - 1) :
    s.getD (⌊idx⌋).toNat 0 ≤ quantileVal s idx ∧
      quantileVal s idx ≤ s.getD (⌈idx⌉).toNat 0 := by
  have hab : s.getD (⌊idx⌋).toNat 0 ≤ s.getD (⌈idx⌉).toNat 0 :=
    sorted_getD_mono hs floor_toNat_le_ceil_toNat (ceil_toNat_lt h0 hn)
  have hf0 : 0 ≤ idx - ((⌊idx⌋ : ℤ) : ℚ) := by
    have := Int.floor_le idx
    linarith
  have hf1 : idx - ((⌊idx⌋ : ℤ) : ℚ) < 1 := by
    have := Int.lt_floor_add_one idx
    linarith
  constructor
  · unfold quantileVal
    nlinarith
  · unfold quantileVal
    nlinarith

lemma quantileVal_mono {s : List ℚ} (hs : s.Sorted (· ≤ ·)) {i1 i2 : ℚ}
    (h0 : 0 ≤ i1) (h12 : i1 ≤ i2) (hn : i2 ≤ (s.length : ℚ) - 1) :
    quantileVal s i1 ≤ quantileVal s i2 := by
  have h02 : 0 ≤ i2 := le_trans h0 h12
  have hn1 : i1 ≤ (s.length : ℚ) - 1 := le_trans h12 hn
  rcases lt_or_eq_of_le (Int.floor_le_floor h12) with hf | hf
  · have hb1 := (quantileVal_between hs h0 hn1).2
    have hb2 := (quantileVal_between hs h02 hn).1
    have hmid : s.getD (⌈i1⌉).toNat 0 ≤ s.getD (⌊i2⌋).toNat 0 := by
      apply sorted_getD_mono hs
      · have hc1 : ⌈i1⌉ ≤ ⌊i1⌋ + 1 := Int.ceil_le_floor_add_one i1
        omega
      · have hc2 : ⌊i2⌋ ≤ ⌈i2⌉ := Int.floor_le_ceil i2
        have := ceil_toNat_lt h02 hn
        omega
    linarith
  · by_cases hc : (⌈i1⌉ : ℤ) = ⌈i2⌉
    · unfold quantileVal
      rw [hf, hc]
      have hba : s.getD (⌊i2⌋).toNat 0 ≤ s.getD (⌈i2⌉).toNat 0 :=
        sorted_getD_mono hs floor_toNat_le_ceil_toNat (ceil_toNat_lt h02 hn)
      nlinarith
    · have hceil1 : ⌈i1⌉ = ⌊i1⌋ ∨ ⌈i1⌉ = ⌊i1⌋ + 1 := by
        have ha := Int.floor_le_ceil i1
        have hb := Int.ceil_le_floor_add_one i1
        omega
      have hint : i1 = ((⌊i1⌋ : ℤ) : ℚ) := by
        rcases hceil1 with h1e | h1
        · have hfl := Int.floor_le i1
          have hce := Int.le_ceil i1
          rw [h1e] at hce
          linarith
        · exfalso
          have hceil2 : ⌈i2⌉ = ⌊i2⌋ ∨ ⌈i2⌉ = ⌊i2⌋ + 1 := by
            have ha := Int.floor_le_ceil i2
            have hb := Int.ceil_le_floor_add_one i2
            omega
          rcases hceil2 with h2 | h2
          · have hi2le : i2 ≤ ((⌊i2⌋ : ℤ) : ℚ) := by
              have hce := Int.le_ceil i2
              rw [h2] at hce
              exact hce
            have hfl1 : ((⌊i1⌋ : ℤ) : ℚ) ≤ i1 := Int.floor_le i1
            have heq12 : i1 = i2 := by
              rw [← hf] at hi2le
              linarith
            exact hc (by rw [heq12])
          · exact hc (by rw [h1, h2, hf])
      have hval1 : quantileVal s i1 = s.getD (⌊i1⌋).toNat 0 := by
        unfold quantileVal
        rw [← hint]
        ring
    -- val2 ≥ s[⌊i2⌋] = s[⌊i1⌋]
      have hb2 := (quantileVal_between hs h02 hn).1
      rw [hval1, hf]
      exact hb2

lemma quantile_le_quantile {v : List ℚ} {q1 q2 : ℚ} (hne : v ≠ [])
    (h0 : 0 ≤ q1) (h12 : q1 ≤ q2) (h1 : q2 ≤ 1) :
    ∃ a b, quantile v q1 = some a ∧ quantile v q2 = some b ∧ a ≤ b := by
  have hs : (v.insertionSort (· ≤ ·)).Sorted (· ≤ ·) := List.sorted_insertionSort _ _
  have hlen1 : 1 ≤ v.length := List.length_pos.mpr hne
  have hlenq : (1 : ℚ) ≤ ((v.insertionSort (· ≤ ·)).length : ℚ) := by
    rw [List.length_insertionSort]
    exact_mod_cast hlen1
  refine ⟨_, _, quantile_eq_val v q1 hne, quantile_eq_val v q2 hne, ?_⟩
  apply quantileVal_mono hs
  · exact mul_nonneg (by linarith) h0
  · exact mul_le_mul_of_nonneg_left h12 (by linarith)
  · have := mul_le_mul_of_nonneg_left h1
      (show (0 : ℚ) ≤ ((v.insertionSort (· ≤ ·)).length : ℚ) - 1 by linarith)
    linarith

lemma clip_mem {x lo hi : ℚ} (h : lo ≤ hi) : lo ≤ clip x lo hi ∧ clip x lo hi ≤ hi := by
  unfold clip
  exact ⟨le_max_left _ _, max_le h (min_le_left _ _)⟩

/-- C10: the interpolating quantile is monotone in its quantile argument
on a non-empty list, so the winsorization bounds
`lo = quantile(y, 0.05)` and `hi = quantile(y, 0.95)` always satisfy
`lo ≤ hi` and every clip to `[lo, hi]` is well-formed. -/
theorem quantile_monotone_winsor :
    (∀ (v : List ℚ) (q1 q2 : ℚ), v ≠ [] → 0 ≤ q1 → q1 ≤ q2 → q2 ≤ 1 →
      ∃ a b, quantile v q1 = some a ∧ quantile v q2 = some b ∧ a ≤ b) ∧
    (∀ (y : List ℚ) (x : ℚ), y ≠ [] →
      ∃ lo hi, quantile y (5 / 100) = some lo ∧ quantile y (95 / 100) = some hi ∧
        lo ≤ clip x lo hi ∧ clip x lo hi ≤ hi) := by
  constructor
  · intro v q1 q2 hne h0 h12 h1
    exact quantile_le_quantile hne h0 h12 h1
  · intro y x hne
    obtain ⟨a, b, ha, hb, hab⟩ :=
      @quantile_le_quantile y (5 / 100) (95 / 100) hne (by norm_num) (by norm_num) (by norm_num)
    exact ⟨a, b, ha, hb, (clip_mem hab).1, (clip_mem hab).2⟩

/-- C10 witness: monotonicity instantiated on the list `[3, 1, 2]` with
quantiles 0 and 1, together with the concrete interpolated values. -/
theorem quantile_monotone_winsor_witness :
    (∃ a b, quantile [3, 1, 2] 0 = some a ∧ quantile [3, 1, 2] 1 = some b ∧ a ≤ b) ∧
    quantile [3, 1, 2] 0 = some 1 ∧ quantile [3, 1, 2] 1 = some 3 := by
  refine ⟨quantile_monotone_winsor.1 [3, 1, 2] 0 1 (by simp) (by norm_num) (by norm_num)
    (by norm_num), ?_, ?_⟩
  · rw [quantile_eq_val [3, 1, 2] 0 (by simp)]
    norm_num [quantileVal, List.insertionSort, List.orderedInsert]
  · rw [quantile_eq_val [3, 1, 2] 1 (by simp)]
    norm_num [quantileVal, List.insertionSort, List.orderedInsert]
    decide

/-- Transcendental math functions used by the model code (`Math.exp` and
`Math.sqrt`), passed explicitly; no verified claim depends on their
values. -/
structure JsMath where
  exp : ℚ → ℚ
  sqrt : ℚ → ℚ

/-- Prepared row of the modeling scripts (`prepareRows` output): the
derived `_`-prefixed fields plus the raw feature fields that
`buildVector` reads. -/
structure WFRow where
  decisionTsMs : ℚ
  regTarget : Option ℚ
  clsTarget : Option ℕ
  censored : Bool
  phaseNow : String
  ttrHours : Option ℚ
  policyWindowHours : Option ℚ
  taxonomyDomain : String
  segmentKey : String
  expectedEdgeAtDecision : JsVal
  targetContractsAtDecision : JsVal
  minKernelContractsAtDecision : JsVal
  avgLegPriceAtDecision : JsVal
  budgetUsdAtDecision : JsVal
  requestUsd : JsVal
  availableUsd : JsVal
  legCount : JsVal
  leg1Venue : Option String
  leg2Venue : Option String
  leg1OrderIntent : Option String
  leg2OrderIntent : Option String
deriving DecidableEq

/-- Dynamic property access `row[key]` for the numeric feature keys (the
`_`-prefixed keys were already safeNum-parsed by `prepareRows`, so they
are re-wrapped; an unknown key reads as undefined). -/
def numField (row : WFRow) : String → JsVal
  | "expectedEdgeAtDecision" => row.expectedEdgeAtDecision
  | "targetContractsAtDecision" => row.targetContractsAtDecision
  | "minKernelContractsAtDecision" => row.minKernelContractsAtDecision
  | "avgLegPriceAtDecision" => row.avgLegPriceAtDecision
  | "budgetUsdAtDecision" => row.budgetUsdAtDecision
  | "requestUsd" => row.requestUsd
  | "availableUsd" => row.availableUsd
  | "legCount" => row.legCount
  | "_ttrHours" =>
    match row.ttrHours with
    | some q => JsVal.num q
    | none => JsVal.null
  | "_policyWindowHours" =>
    match row.policyWindowHours with
    | some q => JsVal.num q
    | none => JsVal.null
  | _ => JsVal.null

/-- The fixed `numericKeys` list of `buildSchema`. -/
def NUMERIC_KEYS : List String :=
  ["expectedEdgeAtDecision", "targetContractsAtDecision", "minKernelContractsAtDecision",
   "avgLegPriceAtDecision", "budgetUsdAtDecision", "requestUsd", "availableUsd",
   "legCount", "_ttrHours", "_policyWindowHours"]

/-- Embedding of `[...new Set(xs)].sort()`: distinct values in first-seen
order, then sorted ascending. -/
def sortedDistinct (xs : List String) : List String :=
  (xs.eraseDups).insertionSort (· ≤ ·)

/-- Feature schema built from a training slice. -/
structure Schema where
  numericKeys : List String
  phaseBuckets : List String
  domainBuckets : List String
  leg1VenueBuckets : List String
  leg2VenueBuckets : List String
  leg1IntentBuckets : List String
  leg2IntentBuckets : List String
deriving DecidableEq

/-- Embedding of `buildSchema(trainRows)`. -/
def buildSchema (trainRows : List WFRow) : Schema :=
  { numericKeys := NUMERIC_KEYS
    phaseBuckets := sortedDistinct (trainRows.map (fun r => r.phaseNow))
    domainBuckets := sortedDistinct (trainRows.map (fun r => r.taxonomyDomain))
    leg1VenueBuckets := sortedDistinct (trainRows.map (fun r => r.leg1Venue.getD "unknown"))
    leg2VenueBuckets := sortedDistinct (trainRows.map (fun r => r.leg2Venue.getD "unknown"))
    leg1IntentBuckets :=
      sortedDistinct (trainRows.map (fun r => r.leg1OrderIntent.getD "unknown"))
    leg2IntentBuckets :=
      sortedDistinct (trainRows.map (fun r => r.leg2OrderIntent.getD "unknown")) }

/-- Embedding of `fitScaler(trainRows, numericKeys)`: per key, the mean
and (epsilon-floored) standard deviation of the non-null training
values, as an association list keyed like the JS stats object. -/
def fitScaler (jm : JsMath) (trainRows : List WFRow) (numericKeys : List String) :
    List (String × (ℚ × ℚ)) :=
  numericKeys.map (fun key =>
    let vals := (trainRows.map (fun r => safeNum (numField r key))).filterMap id
    let mu := (mean vals).getD 0
    let sd := jm.sqrt ((mean (vals.map (fun v => (v - mu) ^ 2))).getD 1)
    (key, (mu, if 1 / 100000000 < sd then sd else 1)))

/-- Embedding of `oneHotValue(value, buckets)`: a zero vector with a 1 at
the first index of `value`, all zeros when absent. -/
def oneHotValue (value : String) (buckets : List String) : List ℚ :=
  match buckets.indexOf? value with
  | some i => (List.range buckets.length).map (fun j => if j = i then 1 else 0)
  | none => List.replicate buckets.length 0

/-- Embedding of `buildVector(row, schema, scaler)`: bias 1, scaled
numeric entries (null imputed to 0 after centering), then the one-hot
blocks.  The scaler always holds every numeric key at the call sites;
the `getD (0, 1)` totalizes the lookup. -/
def buildVector (row : WFRow) (schema : Schema) (scaler : List (String × (ℚ × ℚ))) : List ℚ :=
  let nums := schema.numericKeys.map (fun key =>
    let s := (scaler.lookup key).getD (0, 1)
    match safeNum (numField row key) with
    | none => 0
    | some x => (x - s.1) / s.2)
  1 :: (nums ++ oneHotValue row.phaseNow schema.phaseBuckets
    ++ oneHotValue row.taxonomyDomain schema.domainBuckets
    ++ oneHotValue (row.leg1Venue.getD "unknown") schema.leg1VenueBuckets
    ++ oneHotValue (row.leg2Venue.getD "unknown") schema.leg2VenueBuckets
    ++ oneHotValue (row.leg1OrderIntent.getD "unknown") schema.leg1IntentBuckets
    ++ oneHotValue (row.leg2OrderIntent.getD "unknown") schema.leg2IntentBuckets)

/-- Embedding of `dot(a, b)`. -/
def dotQ (a b : List ℚ) : ℚ := (List.zipWith (fun x y => x * y) a b).sum

/-- Scalar multiple of a vector. -/
def vecScale (c : ℚ) (v : List ℚ) : List ℚ := v.map (fun x => c * x)

/-- Componentwise sum of two vectors. -/
def vecAdd (a b : List ℚ) : List ℚ := List.zipWith (fun x y => x + y) a b

/-- Componentwise difference of two vectors. -/
def vecSub (a b : List ℚ) : List ℚ := List.zipWith (fun x y => x - y) a b

/-- L2 penalty applied to every gradient entry except the bias
(`for j = 1..d: g[j] += 2*lambda*w[j]`). -/
def addRidgePenalty (lam : ℚ) (g w : List ℚ) : List ℚ :=
  match g, w with
  | gh :: gt, _ :: wt => gh :: List.zipWith (fun gj wj => gj + 2 * lam * wj) gt wt
  | _, _ => g

/-- Embedding of `ridgeTrain(X, y, {lr, epochs, lambda})`: full-batch
gradient descent from a zero vector; the per-example gradient
`(2/n)*err*X[i]` is accumulated, the penalty skips the bias, and the
update is `w -= lr*g`. -/
def ridgeTrain (X : List (List ℚ)) (y : List ℚ) (lr lam : ℚ) (epochs : ℕ) : List ℚ :=
  let d := (X.headD []).length
  (List.range epochs).foldl (fun w _ =>
    let g0 := (List.zipWith (fun xi yi =>
      vecScale ((2 / (X.length : ℚ)) * (dotQ w xi - yi)) xi) X y).foldl vecAdd
      (List.replicate d 0)
    vecSub w (vecScale lr (addRidgePenalty lam g0 w))) (List.replicate d 0)

/-- Embedding of `sigmoid(z)` (numerically-stable JS form). -/
def sigmoid (jm : JsMath) (z : ℚ) : ℚ :=
  if 0 ≤ z then 1 / (1 + jm.exp (-z)) else jm.exp z / (1 + jm.exp z)

/-- Embedding of `logisticTrain(X, y, {lr, epochs, lambda, posWeight})`:
the per-example gradient `(sigmoid(w·x) - y) * weight * x` (weight
`posWeight` on positives, 1 on negatives) is accumulated, averaged over
the batch, penalized off the bias, and applied with `w -= lr*g`. -/
def logisticTrain (jm : JsMath) (X : List (List ℚ)) (y : List ℚ)
    (lr lam posWeight : ℚ) (epochs : ℕ) : List ℚ :=
  let d := (X.headD []).length
  (List.range epochs).foldl (fun w _ =>
    let g0 := (List.zipWith (fun xi yi =>
      vecScale ((sigmoid jm (dotQ w xi) - yi) * (if yi = 1 then posWeight else 1)) xi) X y).foldl
      vecAdd (List.replicate d 0)
    vecSub w (vecScale lr (addRidgePenalty lam (vecScale (1 / (X.length : ℚ)) g0) w)))
    (List.replicate d 0)

/-- Embedding of `fitPlatt(logits, labels, {lr, epochs, l2})`: gradient
descent on the two Platt scalars from `(a, b) = (1, 0)`; an empty logit
list returns `(1, 0)` immediately. -/
def fitPlatt (jm : JsMath) (logits labels : List ℚ) (lr l2 : ℚ) (epochs : ℕ) : ℚ × ℚ :=
  if logits.length = 0 then (1, 0)
  else
    (List.range epochs).foldl (fun ab _ =>
      let ga0 := (List.zipWith (fun z y => (sigmoid jm (ab.1 * z + ab.2) - y) * z) logits labels).sum
      let gb0 := (List.zipWith (fun z y => sigmoid jm (ab.1 * z + ab.2) - y) logits labels).sum
      let ga := ga0 / (logits.length : ℚ) + 2 * l2 * ab.1
      let gb := gb0 / (logits.length : ℚ) + 2 * l2 * ab.2
      (ab.1 - lr * ga, ab.2 - lr * gb)) (1, 0)

/-- Segment keys of `groupBySegment(rows)` in Map insertion order (first
occurrence). -/
def segmentKeysInOrder (rows : List WFRow) : List String :=
  (rows.map (fun r => r.segmentKey)).eraseDups

/-- Rows pushed under one segment key by `groupBySegment`, in order. -/
def rowsForSegment (rows : List WFRow) (key : String) : List WFRow :=
  rows.filter (fun r => r.segmentKey == key)

/-- Per-segment regression model: weights plus its own winsorization
bounds. -/
structure RegSegModel where
  weights : List ℚ
  lo : ℚ
  hi : ℚ
deriving DecidableEq

/-- Result record of `decisionPnl(rows, probs, threshold)`.  The reward
of a row is 0 when `probs[i] >= threshold` (buy now) and its regression
target otherwise; at every call site the rows were filtered to non-null
targets (`getD 0` reproduces the JS null-to-0 arithmetic coercion). -/
structure DecisionPnl where
  meanRelativePnl : Option ℚ
  totalRelativePnl : ℚ
  buyRate : Option ℚ
deriving DecidableEq

/-- Embedding of `decisionPnl(rows, probs, threshold)`. -/
def decisionPnl (rows : List WFRow) (probs : List ℚ) (threshold : ℚ) : DecisionPnl :=
  let rewards := List.zipWith (fun r p =>
    if threshold ≤ p then 0 else r.regTarget.getD 0) rows probs
  { meanRelativePnl := mean rewards
    totalRelativePnl := rewards.sum
    buyRate := mean (probs.map (fun p => if threshold ≤ p then (1 : ℚ) else 0)) }

/-- Threshold-tuning entry `{threshold, ...decisionPnl(...)}`. -/
structure TuneEntry where
  threshold : ℚ
  meanRelativePnl : Option ℚ
  totalRelativePnl : ℚ
  buyRate : Option ℚ
deriving DecidableEq

/-- Spread of a `DecisionPnl` into a tuning entry. -/
def mkTuneEntry (t : ℚ) (d : DecisionPnl) : TuneEntry :=
  ⟨t, d.meanRelativePnl, d.totalRelativePnl, d.buyRate⟩

/-- Sort key of the tuning comparator `(a, b) => b.mean - a.mean`; a null
mean is coerced to 0 by the JS subtraction. -/
def tuneKey (e : TuneEntry) : ℚ := e.meanRelativePnl.getD 0

/-- Order imposed by the descending-mean comparator. -/
def tuneR (a b : TuneEntry) : Prop := tuneKey b ≤ tuneKey a

instance : DecidableRel tuneR := fun a b => inferInstanceAs (Decidable (tuneKey b ≤ tuneKey a))

/-- The fixed threshold grid `[0.35, 0.4, 0.45, 0.5, 0.55, 0.6, 0.65]`. -/
def thresholdGrid : List ℚ := [0.35, 0.4, 0.45, 0.5, 0.55, 0.6, 0.65]

/-- Embedding of the threshold-tuning sweep: one `decisionPnl` per grid
threshold, stably sorted by descending mean relative PnL. -/
def tuneSorted (valid : List WFRow) (validProbs : List ℚ) : List TuneEntry :=
  (thresholdGrid.map (fun t => mkTuneEntry t (decisionPnl valid validProbs t))).insertionSort tuneR

/-- Fallback entry for `tuning[0]` (unreachable: the grid is non-empty). -/
def emptyTuneEntry : TuneEntry := ⟨0, none, 0, none⟩

/-- Fields of a `runWindow` result. -/
structure WindowCore where
  threshold : ℚ
  trainRows : ℕ
  validRows : ℕ
  testRows : ℕ
  validBestMeanRelativePnl : Option ℚ
  meanRelativePnl : Option ℚ
  totalRelativePnl : ℚ
  buyRate : Option ℚ
deriving DecidableEq

/-- Slice filter `(r) => !r._censored && r._regTarget !== null`. -/
def notCensoredWithTarget (r : WFRow) : Bool := !r.censored && r.regTarget.isSome

/-- Minimum segment size of the walk-forward path. -/
def MIN_SEGMENT_ROWS : ℕ := 80

/-- Embedding of `runWindow(windowRows, trainCount, validCount,
testCount)`: position-based slicing, filtering to non-censored rows with
a target, the 200/50/50 minimum-count guard (returning null on
failure), then schema/scaler fitting, global and per-segment training,
Platt calibration on the validation slice, threshold tuning, and the
test decision evaluation.  The per-segment regression models the source
builds inside the loop are dead code there (nothing in `runWindow` reads
them); the global regression fit is kept as the unused `_regGlobalW`. -/
def runWindow (jm : JsMath) (windowRows : List WFRow)
    (trainCount validCount testCount : ℕ) : Option WindowCore :=
  let train := (windowRows.take trainCount).filter notCensoredWithTarget
  let valid := ((windowRows.drop trainCount).take validCount).filter notCensoredWithTarget
  let test :=
    ((windowRows.drop (trainCount + validCount)).take testCount).filter notCensoredWithTarget
  if train.length < 200 ∨ valid.length < 50 ∨ test.length < 50 then none
  else
    let schema := buildSchema train
    let scaler := fitScaler jm train schema.numericKeys
    let regTrainX := train.map (fun r => buildVector r schema scaler)
    let regTrainYRaw := train.map (fun r => r.regTarget.getD 0)
    let winsorLo := (quantile regTrainYRaw (5 / 100)).getD 0
    let winsorHi := (quantile regTrainYRaw (95 / 100)).getD 0
    let _regGlobalW :=
      ridgeTrain regTrainX (regTrainYRaw.map (fun v => clip v winsorLo winsorHi))
        (1 / 100) (1 / 5) 1200
    let clsTrainY := train.map (fun r => ((r.clsTarget.getD 0 : ℕ) : ℚ))
    let pos := (clsTrainY.filter (fun x => x == 1)).length
    let neg := (clsTrainY.filter (fun x => x == 0)).length
    let posWeight : ℚ := if 0 < pos then (neg : ℚ) / (pos : ℚ) else 1
    let clsGlobalW := logisticTrain jm regTrainX clsTrainY (1 / 50) (1 / 10) posWeight 1500
    let bigSegs := (segmentKeysInOrder train).filter
      (fun k => MIN_SEGMENT_ROWS ≤ (rowsForSegment train k).length)
    let clsSegments : List (String × List ℚ) := (bigSegs.filter (fun k =>
      let cy := (rowsForSegment train k).map (fun r => ((r.clsTarget.getD 0 : ℕ) : ℚ))
      decide (0 < (cy.filter (fun x => x == 1)).length) &&
        decide (0 < (cy.filter (fun x => x == 0)).length))).map (fun k =>
      let segRows := rowsForSegment train k
      let X := segRows.map (fun r => buildVector r schema scaler)
      let cy := segRows.map (fun r => ((r.clsTarget.getD 0 : ℕ) : ℚ))
      let p := (cy.filter (fun x => x == 1)).length
      let n := (cy.filter (fun x => x == 0)).length
      (k, logisticTrain jm X cy (1 / 50) (1 / 10) ((n : ℚ) / (p : ℚ)) 1500))
    let predictLogit := fun (row : WFRow) =>
      let x := buildVector row schema scaler
      match clsSegments.lookup row.segmentKey with
      | some w => dotQ w x
      | none => dotQ clsGlobalW x
    let validLogits := valid.map predictLogit
    let validLabels := valid.map (fun r => ((r.clsTarget.getD 0 : ℕ) : ℚ))
    let platt := fitPlatt jm validLogits validLabels (1 / 100) (1 / 100) 800
    let predictProb := fun (row : WFRow) => sigmoid jm (platt.1 * predictLogit row + platt.2)
    let validProbs := valid.map predictProb
    let tuning := tuneSorted valid validProbs
    let t0 := tuning.headD emptyTuneEntry
    let testProbs := test.map predictProb
    let testDecision := decisionPnl test testProbs t0.threshold
    some
      { threshold := t0.threshold
        trainRows := train.length
        validRows := valid.length
        testRows := test.length
        validBestMeanRelativePnl := t0.meanRelativePnl
        meanRelativePnl := testDecision.meanRelativePnl
        totalRelativePnl := testDecision.totalRelativePnl
        buyRate := testDecision.buyRate }

/-- One entry of the report's window list: the 1-based window index, the
starting offset of the slice, and the `runWindow` result. -/
structure WindowEntry where
  windowIndex : ℕ
  start : ℕ
  core : WindowCore
deriving DecidableEq

/-- Starting offsets of the loop
`for (start = 0; start + required <= n; start += stride)`. -/
def windowStarts (total required stride : ℕ) : List ℕ :=
  (List.range ((total + stride - required) / stride)).map (fun k => k * stride)

/-- Embedding of the walk-forward window loop: each window slice is run
through `runWindow`; null results are skipped, surviving results are
appended with `windowIndex = windows.length + 1`. -/
def buildWindows (jm : JsMath) (allRows : List WFRow)
    (trainCount validCount testCount stride : ℕ) : List WindowEntry :=
  (windowStarts allRows.length (trainCount + validCount + testCount) stride).foldl
    (fun acc start =>
      match runWindow jm ((allRows.drop start).take (trainCount + validCount + testCount))
          trainCount validCount testCount with
      | none => acc
      | some r => acc ++ [⟨acc.length + 1, start, r⟩]) []

/-- Row as consumed by `evaluateDecision` (only `_regTarget` is read). -/
structure EvalRow where
  _regTarget : Option ℚ
deriving DecidableEq

/-- Decision emitted per row. -/
inductive Decision where
  | buy_now : Decision
  | wait : Decision
deriving DecidableEq

/-- Decisions of `evaluateDecision`: `buy_now` iff
`probs[i] >= threshold`. -/
def decisionsOf (rows : List EvalRow) (probs : List ℚ) (threshold : ℚ) : List Decision :=
  List.zipWith (fun _ p => if threshold ≤ p then Decision.buy_now else Decision.wait) rows probs

/-- Per-row rewards of `evaluateDecision`: null target propagates, a
`buy_now` decision earns 0, a `wait` decision earns the target. -/
def rewardsOf (rows : List EvalRow) (decisions : List Decision) : List (Option ℚ) :=
  List.zipWith (fun r d =>
    match r._regTarget with
    | none => none
    | some delta => some (if d = Decision.buy_now then 0 else delta)) rows decisions

/-- Oracle rewards `max(0, target)` with null propagation. -/
def oracleOf (rows : List EvalRow) : List (Option ℚ) :=
  rows.map (fun r => r._regTarget.map (fun delta => max 0 delta))

/-- Result record of `evaluateDecision`. -/
structure EvalReport where
  threshold : ℚ
  rows : ℕ
  buyRate : Option ℚ
  waitRate : Option ℚ
  meanRelativePnlVsAlwaysBuyNow : Option ℚ
  totalRelativePnlVsAlwaysBuyNow : ℚ
  meanOracleRelativePnlVsAlwaysBuyNow : Option ℚ
  totalOracleRelativePnlVsAlwaysBuyNow : ℚ
deriving DecidableEq

/-- Embedding of `evaluateDecision(rows, probs, threshold)`: rows with a
null target are excluded from reward aggregation but count toward the
row total and the buy/wait rates. -/
def evaluateDecision (rows : List EvalRow) (probs : List ℚ) (threshold : ℚ) : EvalReport :=
  let decisions := decisionsOf rows probs threshold
  let validRewards := (rewardsOf rows decisions).filterMap id
  let validOracle := (oracleOf rows).filterMap id
  { threshold := threshold
    rows := rows.length
    buyRate := mean (decisions.map (fun d => if d = Decision.buy_now then (1 : ℚ) else 0))
    waitRate := mean (decisions.map (fun d => if d = Decision.wait then (1 : ℚ) else 0))
    meanRelativePnlVsAlwaysBuyNow := mean validRewards
    totalRelativePnlVsAlwaysBuyNow := validRewards.sum
    meanOracleRelativePnlVsAlwaysBuyNow := mean validOracle
    totalOracleRelativePnlVsAlwaysBuyNow := validOracle.sum }

/-- C9: the decision-evaluation scenario with probabilities
`[0.9, 0.3, 0.6]`, threshold `0.5` and targets `[10, -5, 20]` produces
decisions `[buy_now, wait, buy_now]`, rewards `[0, -5, 0]`, and mean
relative PnL `-5/3`. -/
theorem decision_scenario_C :
    decisionsOf [⟨some 10⟩, ⟨some (-5)⟩, ⟨some 20⟩] [9/10, 3/10, 6/10] (1/2) =
      [Decision.buy_now, Decision.wait, Decision.buy_now] ∧
    rewardsOf [⟨some 10⟩, ⟨some (-5)⟩, ⟨some 20⟩]
      (decisionsOf [⟨some 10⟩, ⟨some (-5)⟩, ⟨some 20⟩] [9/10, 3/10, 6/10] (1/2)) =
      [some 0, some (-5), some 0] ∧
    (evaluateDecision [⟨some 10⟩, ⟨some (-5)⟩, ⟨some 20⟩] [9/10, 3/10, 6/10]
      (1/2)).meanRelativePnlVsAlwaysBuyNow = some (-5/3) := by
  have hne : Decision.wait ≠ Decision.buy_now := by decide
  refine ⟨?_, ?_, ?_⟩
  · norm_num [decisionsOf]
  · norm_num [decisionsOf, rewardsOf, hne]
  · norm_num [evaluateDecision, decisionsOf, rewardsOf, oracleOf, mean, List.filterMap, hne]
    intro h
    simp at h

lemma lookup_mem {β : Type} {l : List (String × β)} {k : String} {v : β}
    (h : l.lookup k = some v) : (k, v) ∈ l := by
  induction l with
  | nil => exact Option.noConfusion h
  | cons p ps ih =>
    obtain ⟨a, b⟩ := p
    rw [List.lookup_cons] at h
    cases hk : (k == a) with
    | true =>
      rw [hk] at h
      have hkv : b = v := Option.some.inj h
      have hka : k = a := eq_of_beq hk
      rw [hka, hkv]
      exact List.mem_cons_self _ _
    | false =>
      rw [hk] at h
      exact List.mem_cons_of_mem _ (ih h)

/-- Embedding of `predictReg(row)` of the backtest script (and the
identical `predictRegRow` of the single-split trainer): the clipped dot
product of the segment model when one exists for the row's segment key,
else the global model clipped to the global winsorization bounds. -/
def predictReg (segments : List (String × RegSegModel)) (globalWeights : List ℚ)
    (winsorLow winsorHigh : ℚ) (schema : Schema) (scaler : List (String × (ℚ × ℚ)))
    (row : WFRow) : ℚ :=
  let x := buildVector row schema scaler
  match segments.lookup row.segmentKey with
  | some seg => clip (dotQ seg.weights x) seg.lo seg.hi
  | none => clip (dotQ globalWeights x) winsorLow winsorHigh

/-- C7: when every model's bounds are the 5th/95th quantiles of some
non-empty training-target list (as the pipeline builds them), the
regression prediction lies in the closed interval of the bounds of the
model that produced it. -/
theorem predictReg_within_bounds (segments : List (String × RegSegModel))
    (globalWeights : List ℚ) (winsorLow winsorHigh : ℚ) (schema : Schema)
    (scaler : List (String × (ℚ × ℚ))) (row : WFRow)
    (hseg : ∀ p ∈ segments, ∃ ys, ys ≠ [] ∧
      quantile ys (5 / 100) = some p.2.lo ∧ quantile ys (95 / 100) = some p.2.hi)
    (hglob : ∃ ys, ys ≠ [] ∧ quantile ys (5 / 100) = some winsorLow ∧
      quantile ys (95 / 100) = some winsorHigh) :
    (match segments.lookup row.segmentKey with
     | some seg =>
       seg.lo ≤ predictReg segments globalWeights winsorLow winsorHigh schema scaler row ∧
       predictReg segments globalWeights winsorLow winsorHigh schema scaler row ≤ seg.hi
     | none =>
       winsorLow ≤ predictReg segments globalWeights winsorLow winsorHigh schema scaler row ∧
       predictReg segments globalWeights winsorLow winsorHigh schema scaler row ≤ winsorHigh) := by
  cases hl : segments.lookup row.segmentKey with
  | none =>
    obtain ⟨ys, hne, h05, h95⟩ := hglob
    obtain ⟨a, b, ha, hb, hab⟩ :=
      @quantile_le_quantile ys (5 / 100) (95 / 100) hne (by norm_num) (by norm_num) (by norm_num)
    have hlo : winsorLow = a := by
      rw [h05] at ha
      exact Option.some.inj ha
    have hhi : winsorHigh = b := by
      rw [h95] at hb
      exact Option.some.inj hb
    have hlh : winsorLow ≤ winsorHigh := by rw [hlo, hhi]; exact hab
    unfold predictReg
    rw [hl]
    exact clip_mem hlh
  | some seg =>
    obtain ⟨ys, hne, h05, h95⟩ := hseg (row.segmentKey, seg) (lookup_mem hl)
    obtain ⟨a, b, ha, hb, hab⟩ :=
      @quantile_le_quantile ys (5 / 100) (95 / 100) hne (by norm_num) (by norm_num) (by norm_num)
    have hlo : seg.lo = a := by
      rw [h05] at ha
      exact Option.some.inj ha
    have hhi : seg.hi = b := by
      rw [h95] at hb
      exact Option.some.inj hb
    have hlh : seg.lo ≤ seg.hi := by rw [hlo, hhi]; exact hab
    unfold predictReg
    rw [hl]
    exact clip_mem hlh

/-- Minimal prepared row used by witness statements. -/
def wfRow1 : WFRow :=
  ⟨0, some (-1), some 0, false, "unknown", none, none, "other", "other::unknown",
   JsVal.null, JsVal.null, JsVal.null, JsVal.null, JsVal.null, JsVal.null, JsVal.null,
   JsVal.null, none, none, none, none⟩

lemma quantile123_05 : quantile [1, 2, 3] (5 / 100) = some (11 / 10) := by
  rw [quantile_eq_val [1, 2, 3] (5 / 100) (by simp)]
  norm_num [quantileVal, List.insertionSort, List.orderedInsert]
  have hc : (⌈(1 / 10 : ℚ)⌉ : ℤ) = 1 := by
    rw [Int.ceil_eq_iff]
    norm_num
  rw [hc]
  norm_num

lemma quantile123_95 : quantile [1, 2, 3] (95 / 100) = some (29 / 10) := by
  rw [quantile_eq_val [1, 2, 3] (95 / 100) (by simp)]
  norm_num [quantileVal, List.insertionSort, List.orderedInsert]
  have hc : (⌈(19 / 10 : ℚ)⌉ : ℤ) = 2 := by
    rw [Int.ceil_eq_iff]
    norm_num
  rw [hc]
  rw [show (Int.toNat 2) = 2 from rfl]
  norm_num

/-- C7 witness: the bounds property at the global model with bounds
taken from the quantiles of `[1, 2, 3]`. -/
theorem predictReg_within_bounds_witness :
    (match ([] : List (String × RegSegModel)).lookup wfRow1.segmentKey with
     | some seg =>
       seg.lo ≤ predictReg [] [] (11 / 10) (29 / 10) (buildSchema []) [] wfRow1 ∧
       predictReg [] [] (11 / 10) (29 / 10) (buildSchema []) [] wfRow1 ≤ seg.hi
     | none =>
       (11 / 10 : ℚ) ≤ predictReg [] [] (11 / 10) (29 / 10) (buildSchema []) [] wfRow1 ∧
       predictReg [] [] (11 / 10) (29 / 10) (buildSchema []) [] wfRow1 ≤ 29 / 10) :=
  predictReg_within_bounds [] [] (11 / 10) (29 / 10) (buildSchema []) [] wfRow1
    (by intro p hp; exact absurd hp (List.not_mem_nil p))
    ⟨[1, 2, 3], by simp, quantile123_05, quantile123_95⟩

lemma headD_insertionSort_cons (x : TuneEntry) (l : List TuneEntry) (d : TuneEntry) :
    ((x :: l).insertionSort tuneR).headD d =
      (match l.insertionSort tuneR with
       | [] => x
       | b :: _ => if tuneR x b then x else b) := by
  rw [List.insertionSort]
  cases hs : l.insertionSort tuneR with
  | nil => rfl
  | cons b t =>
    rw [List.orderedInsert]
    dsimp only
    split
    · rfl
    · rfl

lemma insertionSort_eq_nil_iff (l : List TuneEntry) :
    l.insertionSort tuneR = [] ↔ l = [] := by
  constructor
  · intro h
    have := congrArg List.length h
    rw [List.length_insertionSort] at this
    exact List.length_eq_zero.mp this
  · intro h
    rw [h]
    rfl

lemma tuneHead_mem (l : List TuneEntry) (d : TuneEntry) (h : l ≠ []) :
    (l.insertionSort tuneR).headD d ∈ l := by
  induction l with
  | nil => exact absurd rfl h
  | cons x xs ih =>
    rw [headD_insertionSort_cons]
    cases hs : xs.insertionSort tuneR with
    | nil => exact List.mem_cons_self _ _
    | cons b t =>
      have hxs : xs ≠ [] := by
        intro he
        rw [he] at hs
        exact List.noConfusion hs
      have hbmem : b ∈ xs := by
        have hm := ih hxs
        rw [hs] at hm
        simpa using hm
      dsimp only
      split
      · exact List.mem_cons_self _ _
      · exact List.mem_cons_of_mem _ hbmem

lemma tuneHead_max (l : List TuneEntry) (d : TuneEntry) :
    ∀ y ∈ l, tuneKey y ≤ tuneKey ((l.insertionSort tuneR).headD d) := by
  induction l with
  | nil =>
    intro y hy
    exact absurd hy (List.not_mem_nil y)
  | cons x xs ih =>
    intro y hy
    rw [headD_insertionSort_cons]
    cases hs : xs.insertionSort tuneR with
    | nil =>
      have hxs : xs = [] := (insertionSort_eq_nil_iff xs).mp hs
      rw [hxs] at hy
      have : y = x := by simpa using hy
      rw [this]
    | cons b t =>
      have hb : ∀ z ∈ xs, tuneKey z ≤ tuneKey b := by
        intro z hz
        have hm := ih z hz
        rw [hs] at hm
        simpa using hm
      dsimp only
      rcases List.mem_cons.mp hy with rfl | hy2
      · split
        · exact le_refl _
        · rename_i hnr
          exact le_of_lt (lt_of_not_le hnr)
      · split
        · rename_i hr
          exact le_trans (hb y hy2) hr
        · exact hb y hy2

lemma tuneHead_first (l : List TuneEntry) (d : TuneEntry)
    (hl : l.Pairwise (fun a b => a.threshold < b.threshold)) :
    ∀ y ∈ l, tuneKey y = tuneKey ((l.insertionSort tuneR).headD d) →
      ((l.insertionSort tuneR).headD d).threshold ≤ y.threshold := by
  induction l with
  | nil =>
    intro y hy
    exact absurd hy (List.not_mem_nil y)
  | cons x xs ih =>
    intro y hy hkey
    rw [headD_insertionSort_cons] at hkey ⊢
    cases hs : xs.insertionSort tuneR with
    | nil =>
      have hxs : xs = [] := (insertionSort_eq_nil_iff xs).mp hs
      rw [hxs] at hy
      have : y = x := by simpa using hy
      rw [this]
    | cons b t =>
      rw [hs] at hkey
      dsimp only at hkey
      have hxs : xs ≠ [] := by
        intro he
        rw [he] at hs
        exact List.noConfusion hs
      have hbhead : (xs.insertionSort tuneR).headD d = b := by
        rw [hs]
        rfl
      have hbmem : b ∈ xs := by
        have hm := tuneHead_mem xs d hxs
        rw [hbhead] at hm
        exact hm
      have hb : ∀ z ∈ xs, tuneKey z ≤ tuneKey b := by
        intro z hz
        have hm := tuneHead_max xs d z hz
        rw [hbhead] at hm
        exact hm
      obtain ⟨hxlt, hpxs⟩ := List.pairwise_cons.mp hl
      dsimp only
      rcases List.mem_cons.mp hy with rfl | hy2
      · split
        · exact le_refl _
        · rename_i hnr
          rw [if_neg hnr] at hkey
          exact absurd (le_of_eq hkey.symm) hnr
      · split
        · rename_i hr
          rw [if_pos hr] at hkey
          exact le_of_lt (hxlt y hy2)
        · rename_i hnr
          rw [if_neg hnr] at hkey
          have := ih hpxs y hy2 (by rw [hbhead]; exact hkey)
          rw [hbhead] at this
          exact this

lemma tuneSorted_eq (valid : List WFRow) (probs : List ℚ) :
    tuneSorted valid probs =
      (thresholdGrid.map (fun t => mkTuneEntry t (decisionPnl valid probs t))).insertionSort
        tuneR := rfl

/-- C4: threshold tuning evaluates the whole grid on the validation
decision reward and `tuning[0]` is a grid threshold whose mean relative
PnL (under the comparator's null-to-0 coercion) is maximal; among
equal-reward thresholds the lowest one is returned (stable sort,
ascending grid). -/
theorem threshold_tuning_first_max (valid : List WFRow) (probs : List ℚ) :
    ((tuneSorted valid probs).headD emptyTuneEntry).threshold ∈ thresholdGrid ∧
    (∀ t ∈ thresholdGrid,
      (decisionPnl valid probs t).meanRelativePnl.getD 0 ≤
        (decisionPnl valid probs
          (((tuneSorted valid probs).headD emptyTuneEntry).threshold)).meanRelativePnl.getD 0) ∧
    (∀ t ∈ thresholdGrid,
      (decisionPnl valid probs t).meanRelativePnl.getD 0 =
        (decisionPnl valid probs
          (((tuneSorted valid probs).headD emptyTuneEntry).threshold)).meanRelativePnl.getD 0 →
      ((tuneSorted valid probs).headD emptyTuneEntry).threshold ≤ t) := by
  have hne : (thresholdGrid.map (fun t => mkTuneEntry t (decisionPnl valid probs t))) ≠ [] := by
    simp [thresholdGrid]
  have hmem := tuneHead_mem _ emptyTuneEntry hne
  rw [← tuneSorted_eq] at hmem
  obtain ⟨t0, ht0grid, ht0eq⟩ := List.mem_map.mp hmem
  have hthr : ((tuneSorted valid probs).headD emptyTuneEntry).threshold = t0 := by
    rw [← ht0eq]
    rfl
  have hkeyhead : tuneKey ((tuneSorted valid probs).headD emptyTuneEntry) =
      (decisionPnl valid probs
        (((tuneSorted valid probs).headD emptyTuneEntry).threshold)).meanRelativePnl.getD 0 := by
    rw [hthr, ← ht0eq]
    rfl
  refine ⟨?_, ?_, ?_⟩
  · rw [hthr]
    exact ht0grid
  · intro t ht
    have hm := tuneHead_max (thresholdGrid.map (fun u => mkTuneEntry u (decisionPnl valid probs u)))
      emptyTuneEntry (mkTuneEntry t (decisionPnl valid probs t))
      (List.mem_map_of_mem _ ht)
    rw [← tuneSorted_eq, hkeyhead] at hm
    exact hm
  · intro t ht hkey
    have hpair : (thresholdGrid.map (fun u => mkTuneEntry u (decisionPnl valid probs u))).Pairwise
        (fun a b => a.threshold < b.threshold) := by
      rw [List.pairwise_map]
      norm_num [thresholdGrid, List.pairwise_cons, mkTuneEntry]
    have hf := tuneHead_first
      (thresholdGrid.map (fun u => mkTuneEntry u (decisionPnl valid probs u)))
      emptyTuneEntry hpair (mkTuneEntry t (decisionPnl valid probs t))
      (List.mem_map_of_mem _ ht)
      (by rw [← tuneSorted_eq, hkeyhead]; exact hkey)
    rw [← tuneSorted_eq] at hf
    exact hf

/-- C4 witness: tuning instantiated on a one-row validation slice. -/
theorem threshold_tuning_first_max_witness :
    (((tuneSorted [wfRow1] [1/2]).headD emptyTuneEntry).threshold ∈ thresholdGrid) ∧
    ((decisionPnl [wfRow1] [1/2] (1/2)).meanRelativePnl.getD 0 ≤
      (decisionPnl [wfRow1] [1/2]
        (((tuneSorted [wfRow1] [1/2]).headD emptyTuneEntry).threshold)).meanRelativePnl.getD 0) :=
  ⟨(threshold_tuning_first_max [wfRow1] [1/2]).1,
   (threshold_tuning_first_max [wfRow1] [1/2]).2.1 (1/2) (by norm_num [thresholdGrid])⟩

lemma buildWindows_foldl (jm : JsMath) (tc vc oc : ℕ) (rows : List WFRow) :
    ∀ (starts : List ℕ) (acc : List WindowEntry),
      starts.foldl (fun acc start =>
        match runWindow jm ((rows.drop start).take (tc + vc + oc)) tc vc oc with
        | none => acc
        | some r => acc ++ [⟨acc.length + 1, start, r⟩]) acc =
      acc ++ ((starts.filterMap (fun s =>
        (runWindow jm ((rows.drop s).take (tc + vc + oc)) tc vc oc).map
          (fun r => (s, r)))).enumFrom acc.length).map
        (fun p => ⟨p.1 + 1, p.2.1, p.2.2⟩) := by
  intro starts
  induction starts with
  | nil =>
    intro acc
    simp
  | cons s ss ih =>
    intro acc
    rw [List.foldl_cons, List.filterMap_cons]
    cases hr : runWindow jm ((rows.drop s).take (tc + vc + oc)) tc vc oc with
    | none =>
      dsimp only [Option.map]
      rw [ih]
      rfl
    | some r =>
      dsimp only [Option.map]
      have hstep := ih (acc ++ [(⟨acc.length + 1, s, r⟩ : WindowEntry)])
      rw [hstep]
      simp only [List.enumFrom_cons, List.map_cons, List.length_append, List.length_cons,
        List.length_nil, List.append_assoc, List.cons_append, List.nil_append]
      rfl
  -- both sides: acc ++ [e] ++ rest vs acc ++ (e :: rest)

/-- C8: a window whose filtered train/valid/test slices fall below the
200/50/50 minimum row counts makes `runWindow` return null (and only
such windows do), and the window loop appends exactly the non-null
results, numbering them consecutively — skipped windows are omitted and
the remaining starts are still processed. -/
theorem walkforward_skips_small_windows :
    (∀ (jm : JsMath) (windowRows : List WFRow) (tc vc oc : ℕ),
      runWindow jm windowRows tc vc oc = none ↔
        (((windowRows.take tc).filter notCensoredWithTarget).length < 200 ∨
         (((windowRows.drop tc).take vc).filter notCensoredWithTarget).length < 50 ∨
         (((windowRows.drop (tc + vc)).take oc).filter notCensoredWithTarget).length < 50)) ∧
    (∀ (jm : JsMath) (allRows : List WFRow) (tc vc oc stride : ℕ),
      buildWindows jm allRows tc vc oc stride =
        (((windowStarts allRows.length (tc + vc + oc) stride).filterMap (fun s =>
          (runWindow jm ((allRows.drop s).take (tc + vc + oc)) tc vc oc).map
            (fun r => (s, r)))).enum).map (fun p => ⟨p.1 + 1, p.2.1, p.2.2⟩)) := by
  constructor
  · intro jm windowRows tc vc oc
    unfold runWindow
    dsimp only
    split
    · rename_i hcond
      exact iff_of_true rfl hcond
    · rename_i hcond
      exact iff_of_false (by simp) hcond
  · intro jm allRows tc vc oc stride
    unfold buildWindows
    rw [buildWindows_foldl]
    rw [List.nil_append]
    rfl

end ArbEdge
